import Mathlib

/-!
Verification of the TensorIterator micro-benchmark generator
(`benchmarks/tensor_iterator_benchmark`): a shallow embedding of
`benchmark/factories.py`, `benchmark/layout_shape.py` and the record-emission
structure of `benchmark/unary.py`, together with theorems settling the
specified properties of the shape/layout generation engine.

Python integers are embedded as `Nat` (all quantities involved are
non-negative; every truncated subtraction that occurs is proved not to
underflow).  Python `assert` failures are embedded as `Except.error`.
-/

namespace TensorIteratorBenchmark

/-- A per-axis layout tag of a layout descriptor (`'contiguous'` /
`'non_contiguous'` strings in the Python source). -/
inductive Tag where
  | contiguous
  | non_contiguous
deriving DecidableEq, Repr

/-! ## factories.py -/

/-- `padding = 1` (factories.py). -/
def padding : Nat := 1

/-- The layout-relevant state of a `torch` tensor: the view sizes, the view
strides, and the sizes of the underlying buffer that was allocated by
`torch.empty` (narrowing/squeezing a view never reallocates). -/
structure Tensor where
  sizes : List Nat
  strides : List Nat
  underlyingSizes : List Nat
deriving DecidableEq, Repr

/-- Element count of the underlying buffer (what `torch.empty(shape)`
allocates: the product of `shape`). -/
def Tensor.storageNumel (t : Tensor) : Nat := t.underlyingSizes.prod

/-- Row-major (contiguous) strides: the stride of an axis is the product of
all later extents.  This is what `torch.empty` produces. -/
def contiguousStrides : List Nat → List Nat
  | [] => []
  | _ :: rest => rest.prod :: contiguousStrides rest

/-- `torch.empty(shape)`: a fresh contiguous tensor over a fresh buffer. -/
def emptyTensor (shape : List Nat) : Tensor :=
  ⟨shape, contiguousStrides shape, shape⟩

/-- `Tensor.narrow(dim, start, length)`: restricts axis `dim` to `length`
elements.  Sizes change, strides and the underlying buffer do not
(the start offset is irrelevant to every property proved here). -/
def Tensor.narrow (t : Tensor) (dim : Nat) (_start : Nat) (length : Nat) : Tensor :=
  ⟨t.sizes.set dim length, t.strides, t.underlyingSizes⟩

/-- `Tensor.squeeze(-1)`: drops the last axis when its extent is 1. -/
def Tensor.squeezeLast (t : Tensor) : Tensor :=
  if t.sizes.getLast? = some 1 then ⟨t.sizes.dropLast, t.strides.dropLast, t.underlyingSizes⟩
  else t

/-- `trivial_1d(shape)` (factories.py): `torch.empty(shape)`. -/
def trivial_1d (shape : List Nat) : Tensor := emptyTensor shape

/-- The loop `for i, s in enumerate(shape): t = t.narrow(i, 0, s)` of
`contiguous_last_dim` (factories.py). -/
def narrowLoop (t : Tensor) : List (Nat × Nat) → Tensor
  | [] => t
  | (i, s) :: rest => narrowLoop (t.narrow i 0 s) rest

/-- `contiguous_last_dim(shape)` (factories.py): allocate with one element of
padding added to every axis, then narrow every axis back to its requested
extent. -/
def contiguous_last_dim (shape : List Nat) : Tensor :=
  narrowLoop (trivial_1d (shape.map (· + padding))) shape.enum

/-- `non_contiguous(shape)` (factories.py):
`contiguous_last_dim((*shape, 1)).squeeze(-1)`. -/
def non_contiguous (shape : List Nat) : Tensor :=
  (contiguous_last_dim (shape ++ [1])).squeezeLast

/-! ## layout_shape.py -/

/-- The three factory callables a `LayoutShape` can carry. -/
inductive FactoryKind where
  | trivial_1d
  | non_contiguous
  | contiguous_last_dim
deriving DecidableEq, Repr

/-- Applying a factory callable to a shape (dtype/device only affect element
content, not layout, and are dropped). -/
def applyFactory : FactoryKind → List Nat → Tensor
  | FactoryKind.trivial_1d, s => trivial_1d s
  | FactoryKind.non_contiguous, s => non_contiguous s
  | FactoryKind.contiguous_last_dim, s => contiguous_last_dim s

/-- The `LayoutShape` named tuple of layout_shape.py.  Note that
`problem_size` is a single integer in the source, in all three branches of
`make_layout_shape`. -/
structure LayoutShape where
  problem_size : Nat
  factory : FactoryKind
  shape : List Nat
deriving DecidableEq, Repr

/-- `LayoutShape.new` (layout_shape.py): materialize the tensor. -/
def LayoutShape.new (ls : LayoutShape) : Tensor := applyFactory ls.factory ls.shape

/-- `split_size(size, dims)` (layout_shape.py):
`s1 = size // dims; s2 = size - s1 * (dims - 1); (s1,) * (dims - 1) + (s2,)`.
The subtraction never underflows for `dims ≥ 1` (see `C4`). -/
def split_size (size : Nat) (dims : Nat) : List Nat :=
  let s1 := size / dims
  let s2 := size - s1 * (dims - 1)
  List.replicate (dims - 1) s1 ++ [s2]

/-- `make_layout_shape(layout, contiguous_size=0, non_contiguous_size=0)`
(layout_shape.py).  The `assert` statements of the source become
`Except.error`; the branch structure, the counting of the tags, the computed
sweep name, `problem_size`, factory and shape are transcribed directly. -/
def make_layout_shape (layout : List Tag) (contiguous_size : Nat)
    (non_contiguous_size : Nat) : Except String (String × LayoutShape) :=
  let countiguous_dims := layout.count Tag.contiguous
  let non_contiguous_dims := layout.count Tag.non_contiguous
  if non_contiguous_dims = 0 then
    if countiguous_dims = 0 then
      Except.error "assert countiguous_dims > 0"
    else
      Except.ok ("all contiguous " ++ toString countiguous_dims ++ "d",
        ⟨contiguous_size, FactoryKind.trivial_1d,
          (split_size contiguous_size countiguous_dims).map (fun x => 2 ^ x)⟩)
  else if countiguous_dims = 0 then
    Except.ok ("all non-contiguous " ++ toString non_contiguous_dims ++ "d",
      ⟨non_contiguous_size, FactoryKind.non_contiguous,
        (split_size non_contiguous_size non_contiguous_dims).map (fun x => 2 ^ x)⟩)
  else if countiguous_dims = 1 then
    if layout.head? = some Tag.contiguous then
      Except.ok ("contiguous 1d and non-contiguous " ++ toString non_contiguous_dims ++ "d",
        ⟨contiguous_size + non_contiguous_size, FactoryKind.contiguous_last_dim,
          ((split_size non_contiguous_size non_contiguous_dims) ++ [contiguous_size]).map
            (fun x => 2 ^ x)⟩)
    else
      Except.error "assert layout is contiguous first"
  else
    Except.error "assert countiguous_dims == 1"

/-- `numel_after_pad(layout, shape)` (layout_shape.py).  The source inspects
`set(layout)`; with only two possible tags this is exactly membership of each
tag.  `reduce(mul, shape, 1)` and the accumulation loop are both left folds. -/
def numel_after_pad (layout : List Tag) (shape : List Nat) : Except String Nat :=
  let ret := shape.foldl (fun acc x => acc * (x + padding)) 1
  if Tag.contiguous ∈ layout ∧ Tag.non_contiguous ∈ layout then
    Except.ok ret
  else if Tag.non_contiguous ∈ layout then
    Except.ok ((1 + padding) * ret)
  else if Tag.contiguous ∈ layout then
    Except.ok (shape.foldl (fun acc x => acc * x) 1)
  else
    Except.error "assert layout is all contiguous"

/-- The numeric types exercised by the benchmark (`torch` dtypes), with the
element widths returned by `sizeof` in layout_shape.py. -/
inductive Dtype where
  | float16
  | bfloat16
  | float32
  | float64
  | int8
  | int64
deriving DecidableEq, Repr, Fintype

/-- `sizeof(dtype)` (layout_shape.py): the element size in bytes. -/
def sizeof : Dtype → Nat
  | Dtype.float16 => 2
  | Dtype.bfloat16 => 2
  | Dtype.float32 => 4
  | Dtype.float64 => 8
  | Dtype.int8 => 1
  | Dtype.int64 => 8

/-- `max_size = 31 if more else 29` (combine_layouts_and_shapes). -/
def max_size (more : Bool) : Nat := if more then 31 else 29

/-- `step = 1 if more else 2` (combine_layouts_and_shapes). -/
def stepSize (more : Bool) : Nat := if more then 1 else 2

/-- `range(0, max_size + 1, step)`: the candidate size-budget exponents of one
sweep. -/
def sizeRange (more : Bool) : List Nat :=
  List.range' 0 ((max_size more + stepSize more) / stepSize more) (stepSize more)

/-- The 1-D part of the result of `combine_layouts_and_shapes`: the Python
`defaultdict(list)` `ret1d`, embedded as an insertion-ordered association
list from sweep name to the list of generated cases. -/
abbrev Ret1 := List (String × List LayoutShape)

/-- The 2-D part: `ret2d`, a `defaultdict` from sweep name to a
`defaultdict(list)` from `non_contiguous_size` to the list of cases. -/
abbrev Ret2 := List (String × List (Nat × List LayoutShape))

/-- `d[k].append(v)` on an insertion-ordered `defaultdict(list)`. -/
def alistAppend {κ : Type} [DecidableEq κ] {α : Type} :
    List (κ × List α) → κ → α → List (κ × List α)
  | [], k, v => [(k, [v])]
  | (k', vs) :: rest, k, v =>
    if k' = k then (k', vs ++ [v]) :: rest else (k', vs) :: alistAppend rest k v

/-- Lookup in an insertion-ordered `defaultdict(list)` (`[]` when absent). -/
def alistGet {κ : Type} [DecidableEq κ] {α : Type} :
    List (κ × List α) → κ → List α
  | [], _ => []
  | (k', vs) :: rest, k => if k' = k then vs else alistGet rest k

/-- `d[k][k2].append(v)` on the two-level `defaultdict` `ret2d`. -/
def alistAppend2 {κ κ2 : Type} [DecidableEq κ] [DecidableEq κ2] {α : Type} :
    List (κ × List (κ2 × List α)) → κ → κ2 → α → List (κ × List (κ2 × List α))
  | [], k, k2, v => [(k, alistAppend [] k2 v)]
  | (k', inner) :: rest, k, k2, v =>
    if k' = k then (k', alistAppend inner k2 v) :: rest
    else (k', inner) :: alistAppend2 rest k k2 v

/-- `ret2d[k][k2]` (the inner sweep list; `[]` when absent). -/
def alistGet2 {κ κ2 : Type} [DecidableEq κ] [DecidableEq κ2] {α : Type}
    (d : List (κ × List (κ2 × List α))) (k : κ) (k2 : κ2) : List α :=
  alistGet (alistGet d k) k2

/-- The `for size in range(...)` loop of the all-contiguous branch of
`combine_layouts_and_shapes`: build the case, `break` (returning the
accumulated `ret1d`) as soon as the padded byte footprint exceeds
`2 ** max_size`, otherwise append and continue. -/
def loopContig (layout : List Tag) (dtype : Dtype) (more : Bool) :
    Ret1 → List Nat → Except String Ret1
  | ret, [] => Except.ok ret
  | ret, size :: rest =>
    match make_layout_shape layout size 0 with
    | Except.error e => Except.error e
    | Except.ok nr =>
      match numel_after_pad layout nr.2.shape with
      | Except.error e => Except.error e
      | Except.ok numel =>
        if numel * sizeof dtype > 2 ^ max_size more then Except.ok ret
        else loopContig layout dtype more (alistAppend ret nr.1 nr.2) rest

/-- The loop of the all-non-contiguous branch (identical, with the size fed
to `non_contiguous_size`). -/
def loopNonContig (layout : List Tag) (dtype : Dtype) (more : Bool) :
    Ret1 → List Nat → Except String Ret1
  | ret, [] => Except.ok ret
  | ret, size :: rest =>
    match make_layout_shape layout 0 size with
    | Except.error e => Except.error e
    | Except.ok nr =>
      match numel_after_pad layout nr.2.shape with
      | Except.error e => Except.error e
      | Except.ok numel =>
        if numel * sizeof dtype > 2 ^ max_size more then Except.ok ret
        else loopNonContig layout dtype more (alistAppend ret nr.1 nr.2) rest

/-- The inner `for size2 in range(...)` loop of the mixed branch: the case is
appended to `ret2d[name][size2]` when it fits the budget and is skipped
otherwise (no `break` in the source here). -/
def loopMixedInner (layout : List Tag) (dtype : Dtype) (more : Bool) (size1 : Nat) :
    Ret2 → List Nat → Except String Ret2
  | ret2, [] => Except.ok ret2
  | ret2, size2 :: rest =>
    match make_layout_shape layout size1 size2 with
    | Except.error e => Except.error e
    | Except.ok nr =>
      match numel_after_pad layout nr.2.shape with
      | Except.error e => Except.error e
      | Except.ok numel =>
        loopMixedInner layout dtype more size1
          (if numel * sizeof dtype ≤ 2 ^ max_size more
           then alistAppend2 ret2 nr.1 size2 nr.2 else ret2) rest

/-- The outer `for size1 in range(...)` loop of the mixed branch. -/
def loopMixedOuter (layout : List Tag) (dtype : Dtype) (more : Bool) :
    Ret2 → List Nat → Except String Ret2
  | ret2, [] => Except.ok ret2
  | ret2, size1 :: rest =>
    match loopMixedInner layout dtype more size1 ret2 (sizeRange more) with
    | Except.error e => Except.error e
    | Except.ok ret2' => loopMixedOuter layout dtype more ret2' rest

/-- The `for layout in layouts` loop of `combine_layouts_and_shapes`,
dispatching on `set(layout)` exactly as the source does. -/
def combineGo (more : Bool) (dtype : Dtype) :
    Ret1 → Ret2 → List (List Tag) → Except String (Ret1 × Ret2)
  | ret1, ret2, [] => Except.ok (ret1, ret2)
  | ret1, ret2, layout :: rest =>
    if Tag.contiguous ∈ layout ∧ Tag.non_contiguous ∉ layout then
      match loopContig layout dtype more ret1 (sizeRange more) with
      | Except.error e => Except.error e
      | Except.ok ret1' => combineGo more dtype ret1' ret2 rest
    else if Tag.non_contiguous ∈ layout ∧ Tag.contiguous ∉ layout then
      match loopNonContig layout dtype more ret1 (sizeRange more) with
      | Except.error e => Except.error e
      | Except.ok ret1' => combineGo more dtype ret1' ret2 rest
    else if Tag.contiguous ∈ layout ∧ Tag.non_contiguous ∈ layout then
      match loopMixedOuter layout dtype more ret2 (sizeRange more) with
      | Except.error e => Except.error e
      | Except.ok ret2' => combineGo more dtype ret1 ret2' rest
    else
      Except.error "assert layout has both tags"

/-- `combine_layouts_and_shapes(layouts, more, dtype)` (layout_shape.py). -/
def combine_layouts_and_shapes (layouts : List (List Tag)) (more : Bool)
    (dtype : Dtype) : Except String (Ret1 × Ret2) :=
  combineGo more dtype [] [] layouts

/-- `layouts_full` (layout_shape.py). -/
def layouts_full : List (List Tag) :=
  [[Tag.contiguous],
   [Tag.contiguous, Tag.contiguous, Tag.contiguous],
   [Tag.non_contiguous],
   [Tag.non_contiguous, Tag.non_contiguous, Tag.non_contiguous],
   [Tag.contiguous, Tag.non_contiguous],
   [Tag.contiguous, Tag.non_contiguous, Tag.non_contiguous, Tag.non_contiguous]]

/-- `layouts_small` (layout_shape.py). -/
def layouts_small : List (List Tag) :=
  [[Tag.contiguous],
   [Tag.non_contiguous, Tag.non_contiguous, Tag.non_contiguous],
   [Tag.contiguous, Tag.non_contiguous, Tag.non_contiguous, Tag.non_contiguous]]

/-- `get(dtype, more)` (layout_shape.py). -/
def get (dtype : Dtype) (more : Bool) : Except String (Ret1 × Ret2) :=
  combine_layouts_and_shapes (if more then layouts_full else layouts_small) more dtype

/-! ## unary.py: which records `compare_problem_sizes` emits -/

/-- The identity of one result record yielded by `compare_problem_sizes`
(unary.py): the operation, the device the sweep was run on, the sweep name,
and (for 2-D sweeps) the `non_contiguous_size` passed to `setup`.  The
measured timing data is opaque to the emission-filtering property and is not
modelled. -/
structure UnaryRecord where
  op : String
  device : String
  layoutName : String
  non_contiguous_size : Option Nat
deriving DecidableEq, Repr

/-- The record-emission structure of the body of `compare_problem_sizes`
(unary.py) for one `(op, dtype)` combination: for every 1-D sweep name a cpu
record is yielded only when `dtype is not torch.float16`, then a cuda record
is always yielded; likewise for every `(name, non_contiguous_size)` key of
the 2-D sweeps. -/
def compare_problem_sizes_records (op : String) (dtype : Dtype)
    (f1dNames : List String) (f2dKeys : List (String × Nat)) : List UnaryRecord :=
  (f1dNames.flatMap fun name =>
    (if dtype ≠ Dtype.float16 then [⟨op, "cpu", name, none⟩] else []) ++
      [⟨op, "cuda", name, none⟩]) ++
  (f2dKeys.flatMap fun p =>
    (if dtype ≠ Dtype.float16 then [⟨op, "cpu", p.1, some p.2⟩] else []) ++
      [⟨op, "cuda", p.1, some p.2⟩])

/-! ## General lemmas about the embedded functions -/

theorem foldl_mul_init (l : List Nat) (a : Nat) :
    l.foldl (fun acc x => acc * x) a = a * l.prod := by
  induction l generalizing a with
  | nil => simp
  | cons x xs ih => simp [List.foldl_cons, ih, List.prod_cons, Nat.mul_assoc]

theorem foldl_mul_pad (l : List Nat) (a : Nat) :
    l.foldl (fun acc x => acc * (x + padding)) a = a * (l.map (· + padding)).prod := by
  induction l generalizing a with
  | nil => simp
  | cons x xs ih => simp [List.foldl_cons, ih, List.prod_cons, Nat.mul_assoc]

theorem set_append_cons {α : Type} (pre : List α) (a b : α) (tail : List α) :
    (pre ++ a :: tail).set pre.length b = pre ++ b :: tail := by
  induction pre with
  | nil => rfl
  | cons p ps ih => simp [List.set, ih]

theorem narrowLoop_underlying (l : List (Nat × Nat)) (t : Tensor) :
    (narrowLoop t l).underlyingSizes = t.underlyingSizes := by
  induction l generalizing t with
  | nil => rfl
  | cons p rest ih => cases p with | mk i s => simp [narrowLoop, ih, Tensor.narrow]

theorem narrowLoop_strides (l : List (Nat × Nat)) (t : Tensor) :
    (narrowLoop t l).strides = t.strides := by
  induction l generalizing t with
  | nil => rfl
  | cons p rest ih => cases p with | mk i s => simp [narrowLoop, ih, Tensor.narrow]

theorem narrowLoop_sizes (rest : List Nat) : ∀ (pre : List Nat) (t : Tensor),
    t.sizes = pre ++ rest.map (· + padding) →
    (narrowLoop t (rest.enumFrom pre.length)).sizes = pre ++ rest := by
  induction rest with
  | nil => intro pre t ht; simpa [List.enumFrom, narrowLoop] using ht
  | cons r rest' ih =>
    intro pre t ht
    simp only [List.enumFrom, narrowLoop]
    have hstep : (t.narrow pre.length 0 r).sizes = (pre ++ [r]) ++ rest'.map (· + padding) := by
      simp only [Tensor.narrow, ht, List.map_cons]
      rw [set_append_cons]
      simp
    have hlen : pre.length + 1 = (pre ++ [r]).length := by simp
    rw [hlen]
    rw [ih (pre ++ [r]) (t.narrow pre.length 0 r) hstep]
    simp

theorem contiguousStrides_getLast? (l : List Nat) (h : l ≠ []) :
    (contiguousStrides l).getLast? = some 1 := by
  induction l with
  | nil => exact absurd rfl h
  | cons a rest ih =>
    cases rest with
    | nil => simp [contiguousStrides]
    | cons b t =>
      show (List.prod (b :: t) :: contiguousStrides (b :: t)).getLast? = some 1
      have : contiguousStrides (b :: t) = t.prod :: contiguousStrides t := rfl
      rw [this, List.getLast?_cons_cons, ← this]
      exact ih (by simp)

theorem contiguous_last_dim_sizes (shape : List Nat) :
    (contiguous_last_dim shape).sizes = shape := by
  have := narrowLoop_sizes shape [] (trivial_1d (shape.map (· + padding))) (by
    simp [trivial_1d, emptyTensor])
  simpa [contiguous_last_dim, List.enum] using this

theorem contiguous_last_dim_underlying (shape : List Nat) :
    (contiguous_last_dim shape).underlyingSizes = shape.map (· + padding) := by
  simp [contiguous_last_dim, narrowLoop_underlying, trivial_1d, emptyTensor]

/-! ## The claims -/

/-- C4 (confirmed): `split_size(s, d)` with `d ≥ 1` returns exactly `d`
entries summing to `s`; the first `d - 1` entries all equal `s / d` and the
last absorbs the remainder (`s - s / d * (d - 1)`, which never underflows);
in particular `split_size 10 3 = [3, 3, 4]`.  Entries are `Nat`, hence
non-negative. -/
theorem C4_split_size (s d : Nat) (hd : 1 ≤ d) :
    (split_size s d).length = d ∧
    (split_size s d).sum = s ∧
    (split_size s d).take (d - 1) = List.replicate (d - 1) (s / d) ∧
    (split_size s d).getLast? = some (s - s / d * (d - 1)) ∧
    s / d * (d - 1) ≤ s ∧
    split_size 10 3 = [3, 3, 4] := by
  have hle : s / d * (d - 1) ≤ s :=
    le_trans (Nat.mul_le_mul_left (s / d) (Nat.sub_le d 1)) (Nat.div_mul_le_self s d)
  refine ⟨?_, ?_, ?_, ?_, hle, by decide⟩
  · simp only [split_size, List.length_append, List.length_replicate, List.length_cons,
      List.length_nil]
    omega
  · simp only [split_size, List.sum_append, List.sum_replicate, List.sum_cons,
      List.sum_nil, smul_eq_mul, Nat.add_zero]
    rw [Nat.mul_comm, Nat.add_sub_cancel' hle]
  · simp only [split_size]
    exact List.take_left' (by simp)
  · simp only [split_size]
    exact List.getLast?_concat _

/-- Witness for C4: the hypothesis `1 ≤ 3` holds and the theorem applies at
`s = 10`, `d = 3`. -/
theorem C4_split_size_witness :
    1 ≤ 3 ∧
    ((split_size 10 3).length = 3 ∧
     (split_size 10 3).sum = 10 ∧
     (split_size 10 3).take (3 - 1) = List.replicate (3 - 1) (10 / 3) ∧
     (split_size 10 3).getLast? = some (10 - 10 / 3 * (3 - 1)) ∧
     10 / 3 * (3 - 1) ≤ 10 ∧
     split_size 10 3 = [3, 3, 4]) :=
  ⟨by decide, C4_split_size 10 3 (by decide)⟩

/-- C10 (confirmed): the empty layout descriptor is rejected by
`make_layout_shape` with the `assert countiguous_dims > 0` failure, for every
pair of budget exponents: no benchmark case is returned. -/
theorem C10_empty_layout_rejected (c n : Nat) :
    make_layout_shape [] c n = Except.error "assert countiguous_dims > 0" := rfl

/-- C1 (code bug): for the mixed descriptor `[contiguous, non_contiguous]`
with budgets `contiguous_size = 3`, `non_contiguous_size = 5`,
`make_layout_shape` returns `problem_size = 3 + 5 = 8` — a single scalar (the
sum of the two exponents), not the pair `(3, 5)` that the specification (and
the repository's own `compare/plot.py`, which classifies records by
`isinstance(problem_size, int)` and indexes `problem_size[0]`/`[1]` in its
2-D path) requires for mixed layouts. -/
theorem C1_mixed_problem_size_is_scalar_sum :
    make_layout_shape [Tag.contiguous, Tag.non_contiguous] 3 5 =
      Except.ok ("contiguous 1d and non-contiguous 1d",
        ⟨3 + 5, FactoryKind.contiguous_last_dim, [32, 8]⟩) := by rfl

/-- Counterexample for C3: for the mixed shape `[2, 4]` (non-contiguous axis
of extent 2, designated contiguous last axis of extent 4) the underlying
buffer allocated by `contiguous_last_dim` has extent `4 + 1 = 5`, not `4`, on
the contiguous last axis: the claim "the buffer's extent on the contiguous
axis equals the requested extent" is false. -/
theorem C3_counterexample :
    ¬ ((contiguous_last_dim [2, 4]).underlyingSizes.getLast? = some 4) := by decide

/-- C3 (corrected): `contiguous_last_dim` over-allocates one element of
padding on *every* axis — including the designated contiguous last axis —
and sub-views every axis back to its requested extent.  The contiguous axis
stays innermost with unit stride, but the underlying buffer's extent on it is
the requested extent plus `padding`, not equal to it. -/
theorem C3_contiguous_last_dim_pads_every_axis (shape : List Nat) :
    (contiguous_last_dim shape).underlyingSizes = shape.map (· + padding) ∧
    (contiguous_last_dim shape).sizes = shape ∧
    (shape ≠ [] → (contiguous_last_dim shape).strides.getLast? = some 1) := by
  refine ⟨contiguous_last_dim_underlying shape, contiguous_last_dim_sizes shape, ?_⟩
  intro h
  rw [contiguous_last_dim, narrowLoop_strides, trivial_1d, emptyTensor]
  exact contiguousStrides_getLast? _ (by simpa using h)

/-- Witness for C3: the amended theorem applies at the concrete shape
`[2, 4]`, whose non-emptiness hypothesis holds. -/
theorem C3_witness :
    (([2, 4] : List Nat) ≠ []) ∧ (contiguous_last_dim [2, 4]).strides.getLast? = some 1 :=
  ⟨by decide, (C3_contiguous_last_dim_pads_every_axis [2, 4]).2.2 (by decide)⟩

/-! ## Classification lemmas for `make_layout_shape` -/

theorem make_pure_contig (L : List Tag) (c n : Nat) (h1 : L ≠ [])
    (h2 : ∀ t ∈ L, t = Tag.contiguous) :
    make_layout_shape L c n =
      Except.ok ("all contiguous " ++ toString (L.count Tag.contiguous) ++ "d",
        ⟨c, FactoryKind.trivial_1d,
          (split_size c (L.count Tag.contiguous)).map (fun x => 2 ^ x)⟩) := by
  have hn : L.count Tag.non_contiguous = 0 := by
    rw [List.count_eq_zero]
    intro hmem
    exact absurd (h2 _ hmem) (by simp)
  have hc : L.count Tag.contiguous ≠ 0 := by
    cases L with
    | nil => exact absurd rfl h1
    | cons a t =>
      have ha := h2 a (by simp)
      subst ha
      simp [List.count_cons]
  simp [make_layout_shape, hn, hc]

theorem make_pure_noncontig (L : List Tag) (c n : Nat) (h1 : L ≠ [])
    (h2 : ∀ t ∈ L, t = Tag.non_contiguous) :
    make_layout_shape L c n =
      Except.ok ("all non-contiguous " ++ toString (L.count Tag.non_contiguous) ++ "d",
        ⟨n, FactoryKind.non_contiguous,
          (split_size n (L.count Tag.non_contiguous)).map (fun x => 2 ^ x)⟩) := by
  have hc : L.count Tag.contiguous = 0 := by
    rw [List.count_eq_zero]
    intro hmem
    exact absurd (h2 _ hmem) (by simp)
  have hn : L.count Tag.non_contiguous ≠ 0 := by
    cases L with
    | nil => exact absurd rfl h1
    | cons a t =>
      have ha := h2 a (by simp)
      subst ha
      simp [List.count_cons]
  simp [make_layout_shape, hn, hc]

theorem make_mixed (L : List Tag) (c n : Nat) (h1 : L.count Tag.contiguous = 1)
    (h2 : Tag.non_contiguous ∈ L) (h3 : L.head? = some Tag.contiguous) :
    make_layout_shape L c n =
      Except.ok ("contiguous 1d and non-contiguous " ++
          toString (L.count Tag.non_contiguous) ++ "d",
        ⟨c + n, FactoryKind.contiguous_last_dim,
          ((split_size n (L.count Tag.non_contiguous)) ++ [c]).map (fun x => 2 ^ x)⟩) := by
  have hn : L.count Tag.non_contiguous ≠ 0 := by
    rw [Ne, List.count_eq_zero]
    simp [h2]
  simp [make_layout_shape, hn, h1, h3]

theorem split_size_zero (d : Nat) : ∀ e ∈ split_size 0 d, e = 0 := by
  intro e he
  simp only [split_size, Nat.zero_div, Nat.zero_mul, Nat.zero_sub, List.mem_append,
    List.mem_replicate, List.mem_singleton] at he
  rcases he with ⟨_, h⟩ | h <;> exact h

/-- C5 (confirmed): a descriptor containing both tags is accepted by
`make_layout_shape` exactly when it has exactly one `contiguous` axis and
that axis is first (otherwise the generation fails immediately with an
`assert`, i.e. `Except.error`); a non-empty descriptor with only one tag kind
is always accepted. -/
theorem C5_mixed_validation (L : List Tag) (c n : Nat) :
    ((Tag.contiguous ∈ L ∧ Tag.non_contiguous ∈ L) →
      ((make_layout_shape L c n).isOk = true ↔
        (L.count Tag.contiguous = 1 ∧ L.head? = some Tag.contiguous))) ∧
    ((L ≠ [] ∧ (Tag.contiguous ∉ L ∨ Tag.non_contiguous ∉ L)) →
      (make_layout_shape L c n).isOk = true) := by
  constructor
  · rintro ⟨hc, hn⟩
    have hcn : L.count Tag.non_contiguous ≠ 0 := by
      rw [Ne, List.count_eq_zero]
      simp [hn]
    have hcc : L.count Tag.contiguous ≠ 0 := by
      rw [Ne, List.count_eq_zero]
      simp [hc]
    constructor
    · intro hok
      by_cases h1 : L.count Tag.contiguous = 1
      · by_cases h3 : L.head? = some Tag.contiguous
        · exact ⟨h1, h3⟩
        · simp [make_layout_shape, hcn, hcc, h1, h3, Except.isOk, Except.toBool] at hok
      · simp [make_layout_shape, hcn, hcc, h1, Except.isOk, Except.toBool] at hok
    · rintro ⟨h1, h3⟩
      rw [make_mixed L c n h1 hn h3]
      rfl
  · rintro ⟨h1, h2⟩
    rcases h2 with hcnot | hnnot
    · have hall : ∀ t ∈ L, t = Tag.non_contiguous := by
        intro t ht
        cases t with
        | contiguous => exact absurd ht hcnot
        | non_contiguous => rfl
      rw [make_pure_noncontig L c n h1 hall]
      rfl
    · have hall : ∀ t ∈ L, t = Tag.contiguous := by
        intro t ht
        cases t with
        | contiguous => rfl
        | non_contiguous => exact absurd ht hnnot
      rw [make_pure_contig L c n h1 hall]
      rfl

/-- Witness for C5: the mixed descriptor `[contiguous, non_contiguous]`
satisfies the hypothesis, and the equivalence holds there. -/
theorem C5_witness :
    (Tag.contiguous ∈ [Tag.contiguous, Tag.non_contiguous] ∧
      Tag.non_contiguous ∈ [Tag.contiguous, Tag.non_contiguous]) ∧
    ((make_layout_shape [Tag.contiguous, Tag.non_contiguous] 2 3).isOk = true ↔
      (([Tag.contiguous, Tag.non_contiguous] : List Tag).count Tag.contiguous = 1 ∧
        ([Tag.contiguous, Tag.non_contiguous] : List Tag).head? = some Tag.contiguous)) :=
  ⟨by decide, (C5_mixed_validation [Tag.contiguous, Tag.non_contiguous] 2 3).1 (by decide)⟩

/-- C9 (confirmed): every extent of a shape returned by `make_layout_shape`
is a power of two, hence at least 1 (no generated case has a zero-sized
axis); with both budget exponents 0 every extent is exactly 1. -/
theorem C9_extents_are_powers_of_two (L : List Tag) (c n : Nat) (nm : String)
    (ls : LayoutShape) (h : make_layout_shape L c n = Except.ok (nm, ls)) :
    (∀ x ∈ ls.shape, ∃ k, x = 2 ^ k) ∧ (∀ x ∈ ls.shape, 1 ≤ x) ∧
    (c = 0 → n = 0 → ∀ x ∈ ls.shape, x = 1) := by
  have hshape : ∃ es : List Nat, ls.shape = es.map (fun x => 2 ^ x) ∧
      (c = 0 → n = 0 → ∀ e ∈ es, e = 0) := by
    by_cases h1 : L.count Tag.non_contiguous = 0
    · by_cases h2 : L.count Tag.contiguous = 0
      · simp [make_layout_shape, h1, h2] at h
      · simp [make_layout_shape, h1, h2] at h
        refine ⟨split_size c (L.count Tag.contiguous), by rw [← h.2], ?_⟩
        intro hc _
        subst hc
        exact split_size_zero _
    · by_cases h2 : L.count Tag.contiguous = 0
      · simp [make_layout_shape, h1, h2] at h
        refine ⟨split_size n (L.count Tag.non_contiguous), by rw [← h.2], ?_⟩
        intro _ hn
        subst hn
        exact split_size_zero _
      · by_cases h3 : L.count Tag.contiguous = 1
        · by_cases h4 : L.head? = some Tag.contiguous
          · simp [make_layout_shape, h1, h2, h3, h4] at h
            refine ⟨split_size n (L.count Tag.non_contiguous) ++ [c], by rw [← h.2]; simp, ?_⟩
            intro hc hn
            subst hc
            subst hn
            intro e he
            rcases List.mem_append.mp he with he | he
            · exact split_size_zero _ e he
            · simpa using he
          · simp [make_layout_shape, h1, h2, h3, h4] at h
        · simp [make_layout_shape, h1, h2, h3] at h
  obtain ⟨es, hes, hzero⟩ := hshape
  refine ⟨?_, ?_, ?_⟩
  · intro x hx
    rw [hes] at hx
    obtain ⟨e, _, hxe⟩ := List.mem_map.mp hx
    exact ⟨e, hxe.symm⟩
  · intro x hx
    rw [hes] at hx
    obtain ⟨e, _, hxe⟩ := List.mem_map.mp hx
    rw [← hxe]
    exact Nat.one_le_two_pow
  · intro hc hn x hx
    rw [hes] at hx
    obtain ⟨e, he, hxe⟩ := List.mem_map.mp hx
    rw [hzero hc hn e he] at hxe
    exact hxe.symm

/-- Witness for C9: the theorem applies to the concrete generated case of the
mixed descriptor at budgets `(0, 0)`, whose shape is `[1, 1]`. -/
theorem C9_witness :
    make_layout_shape [Tag.contiguous, Tag.non_contiguous] 0 0 =
      Except.ok ("contiguous 1d and non-contiguous 1d",
        ⟨0, FactoryKind.contiguous_last_dim, [1, 1]⟩) ∧
    (∃ k, (1 : Nat) = 2 ^ k) :=
  ⟨by rfl,
    (C9_extents_are_powers_of_two [Tag.contiguous, Tag.non_contiguous] 0 0
      "contiguous 1d and non-contiguous 1d"
      ⟨0, FactoryKind.contiguous_last_dim, [1, 1]⟩ (by rfl)).1 1 (by simp)⟩

theorem squeezeLast_underlying (t : Tensor) :
    t.squeezeLast.underlyingSizes = t.underlyingSizes := by
  rw [Tensor.squeezeLast]
  split <;> rfl

/-- C8 (confirmed): for every layout descriptor accepted by
`make_layout_shape` and every shape, `numel_after_pad layout shape` equals
the element count of the underlying buffer allocated by the factory selected
for that layout class: `prod shape` for `trivial_1d` (all contiguous),
`(1 + padding) * prod (extent + padding)` for `non_contiguous`, and
`prod (extent + padding)` over all axes for `contiguous_last_dim` (mixed). -/
theorem C8_numel_matches_factory_allocation (L : List Tag) (c n : Nat) (nm : String)
    (ls : LayoutShape) (shape : List Nat)
    (h : make_layout_shape L c n = Except.ok (nm, ls)) :
    numel_after_pad L shape = Except.ok ((applyFactory ls.factory shape).storageNumel) := by
  by_cases h1 : L.count Tag.non_contiguous = 0
  · by_cases h2 : L.count Tag.contiguous = 0
    · simp [make_layout_shape, h1, h2] at h
    · have hcmem : Tag.contiguous ∈ L := by
        by_contra hmem
        exact h2 (List.count_eq_zero.mpr hmem)
      have hnmem : Tag.non_contiguous ∉ L := List.count_eq_zero.mp h1
      have hfac : ls.factory = FactoryKind.trivial_1d := by
        simp [make_layout_shape, h1, h2] at h
        rw [← h.2]
      rw [hfac]
      simp only [numel_after_pad, applyFactory, trivial_1d, emptyTensor, Tensor.storageNumel]
      rw [if_neg (fun hand => hnmem hand.2), if_neg hnmem, if_pos hcmem, foldl_mul_init]
      simp
  · by_cases h2 : L.count Tag.contiguous = 0
    · have hnmem : Tag.non_contiguous ∈ L := by
        by_contra hmem
        exact h1 (List.count_eq_zero.mpr hmem)
      have hcmem : Tag.contiguous ∉ L := List.count_eq_zero.mp h2
      have hfac : ls.factory = FactoryKind.non_contiguous := by
        simp [make_layout_shape, h1, h2] at h
        rw [← h.2]
      rw [hfac]
      simp only [numel_after_pad, applyFactory, non_contiguous, Tensor.storageNumel,
        squeezeLast_underlying, contiguous_last_dim_underlying]
      rw [if_neg (fun hand => hcmem hand.1), if_pos hnmem, foldl_mul_pad]
      simp [List.map_append, List.prod_append, Nat.mul_comm]
    · have hnmem : Tag.non_contiguous ∈ L := by
        by_contra hmem
        exact h1 (List.count_eq_zero.mpr hmem)
      have hcmem : Tag.contiguous ∈ L := by
        by_contra hmem
        exact h2 (List.count_eq_zero.mpr hmem)
      have hfac : ls.factory = FactoryKind.contiguous_last_dim := by
        by_cases h3 : L.count Tag.contiguous = 1
        · by_cases h4 : L.head? = some Tag.contiguous
          · simp [make_layout_shape, h1, h2, h3, h4] at h
            rw [← h.2]
          · simp [make_layout_shape, h1, h2, h3, h4] at h
        · simp [make_layout_shape, h1, h2, h3] at h
      rw [hfac]
      simp only [numel_after_pad, applyFactory, Tensor.storageNumel,
        contiguous_last_dim_underlying]
      rw [if_pos ⟨hcmem, hnmem⟩, foldl_mul_pad]
      simp

/-- Witness for C8: the theorem applies to the all-contiguous descriptor
`[contiguous]` (accepted at budgets `(3, 0)`) and the shape `[4, 4]`. -/
theorem C8_witness :
    make_layout_shape [Tag.contiguous] 3 0 =
      Except.ok ("all contiguous 1d", ⟨3, FactoryKind.trivial_1d, [8]⟩) ∧
    numel_after_pad [Tag.contiguous] [4, 4] =
      Except.ok ((applyFactory FactoryKind.trivial_1d [4, 4]).storageNumel) :=
  ⟨by rfl,
    C8_numel_matches_factory_allocation [Tag.contiguous] 3 0 "all contiguous 1d"
      ⟨3, FactoryKind.trivial_1d, [8]⟩ [4, 4] (by rfl)⟩

/-! ## C6: strict monotonicity of `problem_size` within every sweep -/

/-- Decides whether a list of `problem_size` values is strictly increasing. -/
def incB : List Nat → Bool
  | [] => true
  | [_] => true
  | a :: b :: t => decide (a < b) && incB (b :: t)

/-- Checks, over the full output of `get dtype more` (the real layout tables
of the source), that every list of the 1-D result mapping and every inner
list of the 2-D result mapping has strictly increasing — and pairwise
distinct — `problem_size` values. -/
def C6check (dtype : Dtype) (more : Bool) : Bool :=
  match get dtype more with
  | Except.ok r =>
      (r.1.all fun p => incB (p.2.map (fun ls => ls.problem_size)) &&
        decide ((p.2.map (fun ls => ls.problem_size)).Nodup)) &&
      (r.2.all fun p => p.2.all fun q => incB (q.2.map (fun ls => ls.problem_size)) &&
        decide ((q.2.map (fun ls => ls.problem_size)).Nodup))
  | Except.error _ => false

set_option maxRecDepth 1000000 in
set_option maxHeartbeats 4000000 in
/-- C6 (confirmed): for every dtype and both size tables (`more = true` uses
`layouts_full` with `max_size = 31`, `step = 1`; `more = false` uses
`layouts_small` with `max_size = 29`, `step = 2`), within each named sweep
produced by `combine_layouts_and_shapes` — each list of the 1-D result
mapping and each inner list of the 2-D result mapping — the `problem_size`
values of successive benchmark cases are strictly increasing, hence unique. -/
theorem C6_problem_sizes_strictly_increasing :
    ∀ (dtype : Dtype) (more : Bool), C6check dtype more = true := by decide

/-! ## C2: every sweep is a `takeWhile` of the candidate budget exponents -/

/-- The sweep names computed by `make_layout_shape` for each layout class. -/
def contigName (L : List Tag) : String :=
  "all contiguous " ++ toString (L.count Tag.contiguous) ++ "d"

def nonContigName (L : List Tag) : String :=
  "all non-contiguous " ++ toString (L.count Tag.non_contiguous) ++ "d"

def mixedName (L : List Tag) : String :=
  "contiguous 1d and non-contiguous " ++ toString (L.count Tag.non_contiguous) ++ "d"

/-- The shape generated for an all-contiguous layout at budget exponent `s`. -/
def contigShapeAt (L : List Tag) (s : Nat) : List Nat :=
  (split_size s (L.count Tag.contiguous)).map (fun x => 2 ^ x)

/-- The shape generated for an all-non-contiguous layout at budget exponent
`s`. -/
def nonContigShapeAt (L : List Tag) (s : Nat) : List Nat :=
  (split_size s (L.count Tag.non_contiguous)).map (fun x => 2 ^ x)

/-- The shape generated for a mixed layout at budgets
`(contiguous_size, non_contiguous_size) = (s1, s2)`. -/
def mixedShapeAt (L : List Tag) (s1 s2 : Nat) : List Nat :=
  ((split_size s2 (L.count Tag.non_contiguous)) ++ [s1]).map (fun x => 2 ^ x)

/-- The benchmark case generated for a mixed layout at budgets `(s1, s2)`. -/
def mixedCase (L : List Tag) (s1 s2 : Nat) : LayoutShape :=
  ⟨s1 + s2, FactoryKind.contiguous_last_dim, mixedShapeAt L s1 s2⟩

/-- The loop guard of `combine_layouts_and_shapes` as a predicate on shapes:
the padded byte footprint `numel_after_pad(layout, shape) * sizeof(dtype)`
fits the byte budget `2 ** max_size`. -/
def fitsBudget (L : List Tag) (dtype : Dtype) (more : Bool) (shape : List Nat) : Bool :=
  match numel_after_pad L shape with
  | Except.ok v => decide (v * sizeof dtype ≤ 2 ^ max_size more)
  | Except.error _ => false

/-- The sweep an all-contiguous layout is specified to produce: the budget
exponents taken from the candidate range *while* they fit the budget (the
sweep stops at the first over-budget size). -/
def contigSweep (L : List Tag) (dtype : Dtype) (more : Bool) : List LayoutShape :=
  ((sizeRange more).takeWhile fun s => fitsBudget L dtype more (contigShapeAt L s)).map
    fun s => ⟨s, FactoryKind.trivial_1d, contigShapeAt L s⟩

/-- Likewise for an all-non-contiguous layout. -/
def nonContigSweep (L : List Tag) (dtype : Dtype) (more : Bool) : List LayoutShape :=
  ((sizeRange more).takeWhile fun s => fitsBudget L dtype more (nonContigShapeAt L s)).map
    fun s => ⟨s, FactoryKind.non_contiguous, nonContigShapeAt L s⟩

/-- Likewise for the mixed sweep keyed by `non_contiguous_size = s2`, varying
the contiguous budget exponent `s1`. -/
def mixedSweep (L : List Tag) (dtype : Dtype) (more : Bool) (s2 : Nat) : List LayoutShape :=
  ((sizeRange more).takeWhile fun s1 => fitsBudget L dtype more (mixedShapeAt L s1 s2)).map
    fun s1 => mixedCase L s1 s2

/-! ### Dictionary lemmas -/

/-- `vs.foldl (alistAppend · k ·) d`: appending a whole list at one key. -/
def alistAppendList {κ : Type} [DecidableEq κ] {α : Type}
    (d : List (κ × List α)) (k : κ) (vs : List α) : List (κ × List α) :=
  vs.foldl (fun d v => alistAppend d k v) d

theorem alistGet_append_self {κ : Type} [DecidableEq κ] {α : Type}
    (d : List (κ × List α)) (k : κ) (v : α) :
    alistGet (alistAppend d k v) k = alistGet d k ++ [v] := by
  induction d with
  | nil => simp [alistAppend, alistGet]
  | cons p rest ih =>
    cases p with
    | mk k' vs =>
      by_cases hk : k' = k
      · simp [alistAppend, alistGet, hk]
      · simp [alistAppend, alistGet, hk, ih]

theorem alistGet_append_other {κ : Type} [DecidableEq κ] {α : Type}
    (d : List (κ × List α)) (k q : κ) (v : α) (h : q ≠ k) :
    alistGet (alistAppend d k v) q = alistGet d q := by
  induction d with
  | nil =>
    have h1 : ¬(k = q) := fun he => h he.symm
    simp [alistAppend, alistGet, h1]
  | cons p rest ih =>
    cases p with
    | mk k' vs =>
      by_cases hk : k' = k
      · have h1 : ¬(k = q) := fun he => h he.symm
        simp [alistAppend, alistGet, hk, h1]
      · by_cases hq : k' = q
        · simp [alistAppend, alistGet, hk, hq, h]
        · simp [alistAppend, alistGet, hk, hq, ih]

theorem alistGet_appendList_self {κ : Type} [DecidableEq κ] {α : Type}
    (k : κ) (vs : List α) : ∀ (d : List (κ × List α)),
    alistGet (alistAppendList d k vs) k = alistGet d k ++ vs := by
  induction vs with
  | nil => intro d; simp [alistAppendList]
  | cons v vs ih =>
    intro d
    show alistGet (alistAppendList (alistAppend d k v) k vs) k = _
    rw [ih, alistGet_append_self]
    simp

theorem alistGet_append2_self {κ κ2 : Type} [DecidableEq κ] [DecidableEq κ2] {α : Type}
    (d : List (κ × List (κ2 × List α))) (k : κ) (k2 : κ2) (v : α) :
    alistGet (alistAppend2 d k k2 v) k = alistAppend (alistGet d k) k2 v := by
  induction d with
  | nil => simp [alistAppend2, alistGet]
  | cons p rest ih =>
    cases p with
    | mk k' inner =>
      by_cases hk : k' = k
      · simp [alistAppend2, alistGet, hk]
      · simp [alistAppend2, alistGet, hk, ih]

theorem alistGet_append2_other {κ κ2 : Type} [DecidableEq κ] [DecidableEq κ2] {α : Type}
    (d : List (κ × List (κ2 × List α))) (k q : κ) (k2 : κ2) (v : α) (h : q ≠ k) :
    alistGet (alistAppend2 d k k2 v) q = alistGet d q := by
  induction d with
  | nil =>
    have h1 : ¬(k = q) := fun he => h he.symm
    simp [alistAppend2, alistGet, h1]
  | cons p rest ih =>
    cases p with
    | mk k' inner =>
      by_cases hk : k' = k
      · have h1 : ¬(k = q) := fun he => h he.symm
        simp [alistAppend2, alistGet, hk, h1]
      · by_cases hq : k' = q
        · simp [alistAppend2, alistGet, hk, hq, h]
        · simp [alistAppend2, alistGet, hk, hq, ih]

theorem alistGet2_append2_same_k2 {κ κ2 : Type} [DecidableEq κ] [DecidableEq κ2] {α : Type}
    (d : List (κ × List (κ2 × List α))) (k : κ) (k2 : κ2) (v : α) :
    alistGet2 (alistAppend2 d k k2 v) k k2 = alistGet2 d k k2 ++ [v] := by
  rw [alistGet2, alistGet_append2_self, alistGet_append_self]
  rfl

theorem alistGet2_append2_other_k2 {κ κ2 : Type} [DecidableEq κ] [DecidableEq κ2] {α : Type}
    (d : List (κ × List (κ2 × List α))) (k : κ) (k2 q : κ2) (v : α) (h : q ≠ k2) :
    alistGet2 (alistAppend2 d k k2 v) k q = alistGet2 d k q := by
  rw [alistGet2, alistGet_append2_self, alistGet_append_other _ _ _ _ h]
  rfl

/-! ### `numel_after_pad` per layout class -/

theorem numel_pure_contig (L : List Tag) (shape : List Nat)
    (hc : Tag.contiguous ∈ L) (hn : Tag.non_contiguous ∉ L) :
    numel_after_pad L shape =
      Except.ok (shape.foldl (fun acc x => acc * x) 1) := by
  rw [numel_after_pad]
  rw [if_neg (fun hand => hn hand.2), if_neg hn, if_pos hc]

theorem numel_pure_noncontig (L : List Tag) (shape : List Nat)
    (hn : Tag.non_contiguous ∈ L) (hc : Tag.contiguous ∉ L) :
    numel_after_pad L shape =
      Except.ok ((1 + padding) * shape.foldl (fun acc x => acc * (x + padding)) 1) := by
  rw [numel_after_pad]
  rw [if_neg (fun hand => hc hand.1), if_pos hn]

theorem numel_mixed (L : List Tag) (shape : List Nat)
    (hc : Tag.contiguous ∈ L) (hn : Tag.non_contiguous ∈ L) :
    numel_after_pad L shape =
      Except.ok (shape.foldl (fun acc x => acc * (x + padding)) 1) := by
  rw [numel_after_pad]
  rw [if_pos ⟨hc, hn⟩]

/-! ### The pure sweeps accumulate exactly a `takeWhile` -/

theorem alistAppendList_nil {κ : Type} [DecidableEq κ] {α : Type}
    (d : List (κ × List α)) (k : κ) : alistAppendList d k [] = d := rfl

theorem alistAppendList_cons {κ : Type} [DecidableEq κ] {α : Type}
    (d : List (κ × List α)) (k : κ) (v : α) (vs : List α) :
    alistAppendList d k (v :: vs) = alistAppendList (alistAppend d k v) k vs := rfl

theorem pure_contig_mem (L : List Tag) (h1 : L ≠ [])
    (h2 : ∀ t ∈ L, t = Tag.contiguous) : Tag.contiguous ∈ L := by
  cases L with
  | nil => exact absurd rfl h1
  | cons a t =>
    have ha := h2 a (by simp)
    cases a with
    | contiguous => simp
    | non_contiguous => exact absurd ha (by simp)

theorem pure_noncontig_mem (L : List Tag) (h1 : L ≠ [])
    (h2 : ∀ t ∈ L, t = Tag.non_contiguous) : Tag.non_contiguous ∈ L := by
  cases L with
  | nil => exact absurd rfl h1
  | cons a t =>
    have ha := h2 a (by simp)
    cases a with
    | contiguous => exact absurd ha (by simp)
    | non_contiguous => simp

theorem loopContig_acc (L : List Tag) (dtype : Dtype) (more : Bool)
    (h1 : L ≠ []) (h2 : ∀ t ∈ L, t = Tag.contiguous) (cands : List Nat) :
    ∀ (ret : Ret1),
      loopContig L dtype more ret cands =
        Except.ok (alistAppendList ret (contigName L)
          ((cands.takeWhile fun s => fitsBudget L dtype more (contigShapeAt L s)).map
            fun s => ⟨s, FactoryKind.trivial_1d, contigShapeAt L s⟩)) := by
  have hcmem : Tag.contiguous ∈ L := pure_contig_mem L h1 h2
  have hnmem : Tag.non_contiguous ∉ L := fun hm => absurd (h2 _ hm) (by simp)
  induction cands with
  | nil => intro ret; simp [loopContig, alistAppendList]
  | cons s rest ih =>
    intro ret
    have hmk := make_pure_contig L s 0 h1 h2
    have hnum := numel_pure_contig L
      ((split_size s (L.count Tag.contiguous)).map (fun x => 2 ^ x)) hcmem hnmem
    simp only [loopContig, hmk, hnum]
    rw [List.takeWhile_cons]
    by_cases hfit : ((split_size s (L.count Tag.contiguous)).map fun x => 2 ^ x).foldl
        (fun acc x => acc * x) 1 * sizeof dtype ≤ 2 ^ max_size more
    · have hfb : fitsBudget L dtype more (contigShapeAt L s) = true := by
        simp [fitsBudget, contigShapeAt, hnum, hfit]
      rw [if_neg (Nat.not_lt.mpr hfit), hfb]
      rw [ih (alistAppend ret ("all contiguous " ++ toString (L.count Tag.contiguous) ++ "d")
        ⟨s, FactoryKind.trivial_1d,
          (split_size s (L.count Tag.contiguous)).map (fun x => 2 ^ x)⟩)]
      simp [contigName, contigShapeAt, alistAppendList_cons]
    · have hfb : fitsBudget L dtype more (contigShapeAt L s) = false := by
        simp [fitsBudget, contigShapeAt, hnum, hfit]
      rw [if_pos (Nat.not_le.mp hfit), hfb]
      simp [alistAppendList_nil]

theorem loopNonContig_acc (L : List Tag) (dtype : Dtype) (more : Bool)
    (h1 : L ≠ []) (h2 : ∀ t ∈ L, t = Tag.non_contiguous) (cands : List Nat) :
    ∀ (ret : Ret1),
      loopNonContig L dtype more ret cands =
        Except.ok (alistAppendList ret (nonContigName L)
          ((cands.takeWhile fun s => fitsBudget L dtype more (nonContigShapeAt L s)).map
            fun s => ⟨s, FactoryKind.non_contiguous, nonContigShapeAt L s⟩)) := by
  have hnmem : Tag.non_contiguous ∈ L := pure_noncontig_mem L h1 h2
  have hcmem : Tag.contiguous ∉ L := fun hm => absurd (h2 _ hm) (by simp)
  induction cands with
  | nil => intro ret; simp [loopNonContig, alistAppendList]
  | cons s rest ih =>
    intro ret
    have hmk := make_pure_noncontig L 0 s h1 h2
    have hnum := numel_pure_noncontig L
      ((split_size s (L.count Tag.non_contiguous)).map (fun x => 2 ^ x)) hnmem hcmem
    simp only [loopNonContig, hmk, hnum]
    rw [List.takeWhile_cons]
    by_cases hfit : (1 + padding) * ((split_size s (L.count Tag.non_contiguous)).map
        fun x => 2 ^ x).foldl (fun acc x => acc * (x + padding)) 1 * sizeof dtype ≤
          2 ^ max_size more
    · have hfb : fitsBudget L dtype more (nonContigShapeAt L s) = true := by
        simp [fitsBudget, nonContigShapeAt, hnum, hfit]
      rw [if_neg (Nat.not_lt.mpr hfit), hfb]
      rw [ih (alistAppend ret ("all non-contiguous " ++ toString (L.count Tag.non_contiguous) ++ "d")
        ⟨s, FactoryKind.non_contiguous,
          (split_size s (L.count Tag.non_contiguous)).map (fun x => 2 ^ x)⟩)]
      simp [nonContigName, nonContigShapeAt, alistAppendList_cons]
    · have hfb : fitsBudget L dtype more (nonContigShapeAt L s) = false := by
        simp [fitsBudget, nonContigShapeAt, hnum, hfit]
      rw [if_pos (Nat.not_le.mp hfit), hfb]
      simp [alistAppendList_nil]

/-! ### The mixed sweep as a fold -/

/-- One iteration of the inner mixed loop: append the case for `(s1, s2)` to
`ret2d[name][s2]` when it fits the budget, otherwise leave the dict alone. -/
def innerStep (L : List Tag) (dtype : Dtype) (more : Bool) (s1 : Nat)
    (d : Ret2) (s2 : Nat) : Ret2 :=
  if (mixedShapeAt L s1 s2).foldl (fun acc x => acc * (x + padding)) 1 * sizeof dtype ≤
      2 ^ max_size more
  then alistAppend2 d (mixedName L) s2 (mixedCase L s1 s2)
  else d

theorem mixed_contig_mem (L : List Tag) (h1 : L.count Tag.contiguous = 1) :
    Tag.contiguous ∈ L := by
  by_contra hm
  rw [List.count_eq_zero.mpr hm] at h1
  exact absurd h1 (by decide)

theorem loopMixedInner_acc (L : List Tag) (dtype : Dtype) (more : Bool) (s1 : Nat)
    (h1 : L.count Tag.contiguous = 1) (h2 : Tag.non_contiguous ∈ L)
    (h3 : L.head? = some Tag.contiguous) (cands : List Nat) :
    ∀ (ret2 : Ret2),
      loopMixedInner L dtype more s1 ret2 cands =
        Except.ok (cands.foldl (innerStep L dtype more s1) ret2) := by
  have hcmem : Tag.contiguous ∈ L := mixed_contig_mem L h1
  induction cands with
  | nil => intro ret2; simp [loopMixedInner]
  | cons s2 rest ih =>
    intro ret2
    have hmk := make_mixed L s1 s2 h1 h2 h3
    have hnum := numel_mixed L
      (((split_size s2 (L.count Tag.non_contiguous)) ++ [s1]).map (fun x => 2 ^ x)) hcmem h2
    simp only [loopMixedInner, hmk, hnum]
    rw [ih, List.foldl_cons, innerStep]
    simp [mixedShapeAt, mixedCase, mixedName]

theorem get2_innerFold_other (L : List Tag) (dtype : Dtype) (more : Bool) (s1 : Nat)
    (cands : List Nat) : ∀ (d : Ret2) (q : Nat), q ∉ cands →
    alistGet2 (cands.foldl (innerStep L dtype more s1) d) (mixedName L) q =
      alistGet2 d (mixedName L) q := by
  induction cands with
  | nil => intro d q _; rfl
  | cons s2 rest ih =>
    intro d q hq
    have hqs2 : q ≠ s2 := fun he => hq (he ▸ List.mem_cons_self s2 rest)
    have hqrest : q ∉ rest := fun hm => hq (List.mem_cons_of_mem s2 hm)
    simp only [List.foldl_cons]
    rw [ih _ q hqrest]
    rw [innerStep]
    split
    · exact alistGet2_append2_other_k2 _ _ _ _ _ hqs2
    · rfl

theorem get2_innerFold_mem (L : List Tag) (dtype : Dtype) (more : Bool) (s1 : Nat) :
    ∀ (cands : List Nat), cands.Nodup → ∀ (d : Ret2) (q : Nat), q ∈ cands →
    alistGet2 (cands.foldl (innerStep L dtype more s1) d) (mixedName L) q =
      alistGet2 d (mixedName L) q ++
        (if (mixedShapeAt L s1 q).foldl (fun acc x => acc * (x + padding)) 1 * sizeof dtype ≤
            2 ^ max_size more
         then [mixedCase L s1 q] else []) := by
  intro cands
  induction cands with
  | nil => intro _ d q hq; simp at hq
  | cons s2 rest ih =>
    intro hnd d q hq
    rcases List.nodup_cons.mp hnd with ⟨hs2, hndrest⟩
    by_cases he : q = s2
    · subst he
      simp only [List.foldl_cons]
      rw [get2_innerFold_other L dtype more s1 rest _ q hs2]
      rw [innerStep]
      split
      · exact alistGet2_append2_same_k2 _ _ _ _
      · simp
    · have hq' : q ∈ rest := (List.mem_cons.mp hq).resolve_left he
      simp only [List.foldl_cons]
      rw [ih hndrest _ q hq']
      congr 1
      rw [innerStep]
      split
      · exact alistGet2_append2_other_k2 _ _ _ _ _ he
      · rfl

theorem loopMixedOuter_acc (L : List Tag) (dtype : Dtype) (more : Bool)
    (h1 : L.count Tag.contiguous = 1) (h2 : Tag.non_contiguous ∈ L)
    (h3 : L.head? = some Tag.contiguous) (s1cands : List Nat) :
    ∀ (ret2 : Ret2),
      loopMixedOuter L dtype more ret2 s1cands =
        Except.ok (s1cands.foldl
          (fun d s1 => (sizeRange more).foldl (innerStep L dtype more s1) d) ret2) := by
  induction s1cands with
  | nil => intro ret2; simp [loopMixedOuter]
  | cons s1 rest ih =>
    intro ret2
    simp only [loopMixedOuter, loopMixedInner_acc L dtype more s1 h1 h2 h3 (sizeRange more) ret2]
    rw [ih]
    simp

theorem get2_outerFold (L : List Tag) (dtype : Dtype) (more : Bool) (q : Nat)
    (hqmem : q ∈ sizeRange more) (hnd : (sizeRange more).Nodup) :
    ∀ (s1cands : List Nat) (d : Ret2),
      alistGet2 (s1cands.foldl
          (fun d s1 => (sizeRange more).foldl (innerStep L dtype more s1) d) d)
        (mixedName L) q =
      alistGet2 d (mixedName L) q ++
        (s1cands.filter fun s1 =>
          decide ((mixedShapeAt L s1 q).foldl (fun acc x => acc * (x + padding)) 1 *
            sizeof dtype ≤ 2 ^ max_size more)).map (fun s1 => mixedCase L s1 q) := by
  intro s1cands
  induction s1cands with
  | nil => intro d; simp
  | cons s1 rest ih =>
    intro d
    simp only [List.foldl_cons]
    rw [ih]
    rw [get2_innerFold_mem L dtype more s1 (sizeRange more) hnd d q hqmem]
    rw [List.filter_cons]
    by_cases hcond : (mixedShapeAt L s1 q).foldl (fun acc x => acc * (x + padding)) 1 *
        sizeof dtype ≤ 2 ^ max_size more
    · rw [if_pos hcond, if_pos (by simpa using hcond)]
      simp
    · rw [if_neg hcond, if_neg (by simpa using hcond)]
      simp

/-! ### Monotonicity of the budget predicate in the contiguous exponent -/

theorem fitsBudget_mixed_eq (L : List Tag) (dtype : Dtype) (more : Bool)
    (hcmem : Tag.contiguous ∈ L) (hnmem : Tag.non_contiguous ∈ L) (shape : List Nat) :
    fitsBudget L dtype more shape =
      decide (shape.foldl (fun acc x => acc * (x + padding)) 1 * sizeof dtype ≤
        2 ^ max_size more) := by
  rw [fitsBudget, numel_mixed L shape hcmem hnmem]

theorem mixed_foldl_value (L : List Tag) (q s1 : Nat) :
    (mixedShapeAt L s1 q).foldl (fun acc x => acc * (x + padding)) 1 =
      ((split_size q (L.count Tag.non_contiguous)).map
        (fun x => 2 ^ x + padding)).prod * (2 ^ s1 + padding) := by
  rw [foldl_mul_pad]
  simp only [mixedShapeAt, List.map_append, List.map_map, List.prod_append, one_mul,
    List.map_cons, List.map_nil, List.prod_cons, List.prod_nil, mul_one]
  rfl

theorem mixed_fit_mono (L : List Tag) (dtype : Dtype) (more : Bool) (q : Nat)
    (a b : Nat) (hab : a ≤ b)
    (hb : (mixedShapeAt L b q).foldl (fun acc x => acc * (x + padding)) 1 * sizeof dtype ≤
      2 ^ max_size more) :
    (mixedShapeAt L a q).foldl (fun acc x => acc * (x + padding)) 1 * sizeof dtype ≤
      2 ^ max_size more := by
  rw [mixed_foldl_value] at hb ⊢
  refine le_trans (Nat.mul_le_mul_right (sizeof dtype) ?_) hb
  exact Nat.mul_le_mul_left _ (Nat.add_le_add_right (Nat.pow_le_pow_right (by decide) hab) _)

theorem filter_eq_takeWhile_mono (p : Nat → Bool)
    (hmono : ∀ a b : Nat, a ≤ b → p b = true → p a = true) :
    ∀ (l : List Nat), l.Pairwise (· ≤ ·) → l.filter p = l.takeWhile p := by
  intro l
  induction l with
  | nil => intro _; rfl
  | cons a rest ih =>
    intro hs
    rcases List.pairwise_cons.mp hs with ⟨hhead, htail⟩
    by_cases hpa : p a = true
    · rw [List.filter_cons, List.takeWhile_cons]
      simp [hpa, ih htail]
    · rw [List.filter_cons, List.takeWhile_cons, if_neg hpa, if_neg hpa]
      rw [List.filter_eq_nil_iff]
      intro b hb hpb
      exact hpa (hmono a b (hhead b hb) hpb)

theorem sizeRange_pairwise_le (more : Bool) : (sizeRange more).Pairwise (· ≤ ·) := by
  cases more <;> decide

theorem sizeRange_nodup (more : Bool) : (sizeRange more).Nodup := by
  cases more <;> decide

/-- C2 (confirmed): for every layout descriptor, dtype and size table, each
generated size sweep is exactly a `takeWhile` of the candidate budget
exponents under the byte-budget predicate: the sweep stops at the first size
whose padded byte footprint exceeds `2 ** max_size`, and no case with a
larger budget exponent appears after it.  For the two pure classes the loop
literally `break`s; for the mixed class the loop skips over-budget
`(size1, size2)` pairs, but since the footprint is monotone in the contiguous
exponent `size1` each inner sweep (keyed by `non_contiguous_size = size2`)
still equals the `takeWhile` — it terminates rather than skipping. -/
theorem C2_sweep_stops_at_first_over_budget (L : List Tag) (dtype : Dtype) (more : Bool) :
    ((L ≠ [] ∧ ∀ t ∈ L, t = Tag.contiguous) →
      ∃ r1, loopContig L dtype more [] (sizeRange more) = Except.ok r1 ∧
        alistGet r1 (contigName L) = contigSweep L dtype more) ∧
    ((L ≠ [] ∧ ∀ t ∈ L, t = Tag.non_contiguous) →
      ∃ r1, loopNonContig L dtype more [] (sizeRange more) = Except.ok r1 ∧
        alistGet r1 (nonContigName L) = nonContigSweep L dtype more) ∧
    ((L.count Tag.contiguous = 1 ∧ Tag.non_contiguous ∈ L ∧
        L.head? = some Tag.contiguous) →
      ∃ r2, loopMixedOuter L dtype more [] (sizeRange more) = Except.ok r2 ∧
        ∀ s2 ∈ sizeRange more,
          alistGet2 r2 (mixedName L) s2 = mixedSweep L dtype more s2) := by
  refine ⟨?_, ?_, ?_⟩
  · rintro ⟨h1, h2⟩
    refine ⟨_, loopContig_acc L dtype more h1 h2 (sizeRange more) [], ?_⟩
    rw [alistGet_appendList_self]
    rfl
  · rintro ⟨h1, h2⟩
    refine ⟨_, loopNonContig_acc L dtype more h1 h2 (sizeRange more) [], ?_⟩
    rw [alistGet_appendList_self]
    rfl
  · rintro ⟨h1, h2, h3⟩
    have hcmem : Tag.contiguous ∈ L := mixed_contig_mem L h1
    refine ⟨_, loopMixedOuter_acc L dtype more h1 h2 h3 (sizeRange more) [], ?_⟩
    intro s2 hs2
    rw [get2_outerFold L dtype more s2 hs2 (sizeRange_nodup more) (sizeRange more) []]
    have hget0 : alistGet2 ([] : Ret2) (mixedName L) s2 = [] := rfl
    rw [hget0, List.nil_append]
    rw [filter_eq_takeWhile_mono _ (fun a b hab hb => by
      rw [decide_eq_true_eq] at hb ⊢
      exact mixed_fit_mono L dtype more s2 a b hab hb) (sizeRange more)
      (sizeRange_pairwise_le more)]
    have hpred : (fun s1 => fitsBudget L dtype more (mixedShapeAt L s1 s2)) =
        (fun s1 => decide ((mixedShapeAt L s1 s2).foldl (fun acc x => acc * (x + padding)) 1 *
          sizeof dtype ≤ 2 ^ max_size more)) := by
      funext s1
      exact fitsBudget_mixed_eq L dtype more hcmem h2 _
    rw [mixedSweep, hpred]

/-- Witness for C2: the all-contiguous hypothesis holds for `[contiguous]`,
and the theorem's first part applies there (with `dtype = float32` and the
small table). -/
theorem C2_witness :
    (([Tag.contiguous] : List Tag) ≠ [] ∧
      ∀ t ∈ ([Tag.contiguous] : List Tag), t = Tag.contiguous) ∧
    (∃ r1, loopContig [Tag.contiguous] Dtype.float32 false [] (sizeRange false) =
        Except.ok r1 ∧
      alistGet r1 (contigName [Tag.contiguous]) =
        contigSweep [Tag.contiguous] Dtype.float32 false) :=
  ⟨⟨by decide, by decide⟩,
    (C2_sweep_stops_at_first_over_budget [Tag.contiguous] Dtype.float32 false).1
      ⟨by decide, by decide⟩⟩

/-- C7 (confirmed): for every `(operation, dtype)` combination driven by
`compare_problem_sizes`, backend applicability is filtered per dtype: when
the dtype is `float16` no cpu record is emitted (every emitted record is a
cuda record), while for every other dtype both a cpu and a cuda record are
emitted for every 1-D sweep name and every 2-D `(name, non_contiguous_size)`
key. -/
theorem C7_float16_skips_cpu (op : String) (dtype : Dtype)
    (f1dNames : List String) (f2dKeys : List (String × Nat)) :
    (dtype = Dtype.float16 →
      ∀ r ∈ compare_problem_sizes_records op dtype f1dNames f2dKeys,
        r.device = "cuda") ∧
    (dtype ≠ Dtype.float16 →
      (∀ name ∈ f1dNames,
        (⟨op, "cpu", name, none⟩ : UnaryRecord) ∈
          compare_problem_sizes_records op dtype f1dNames f2dKeys ∧
        (⟨op, "cuda", name, none⟩ : UnaryRecord) ∈
          compare_problem_sizes_records op dtype f1dNames f2dKeys) ∧
      (∀ p ∈ f2dKeys,
        (⟨op, "cpu", p.1, some p.2⟩ : UnaryRecord) ∈
          compare_problem_sizes_records op dtype f1dNames f2dKeys ∧
        (⟨op, "cuda", p.1, some p.2⟩ : UnaryRecord) ∈
          compare_problem_sizes_records op dtype f1dNames f2dKeys)) := by
  constructor
  · intro h r hr
    subst h
    simp only [compare_problem_sizes_records, ne_eq, not_true_eq_false, if_neg,
      ite_false, List.nil_append, List.mem_append, List.mem_flatMap] at hr
    rcases hr with ⟨name, _, hr⟩ | ⟨p, _, hr⟩ <;>
      simp only [List.mem_singleton] at hr <;> subst hr <;> rfl
  · intro h
    constructor
    · intro name hname
      constructor
      · simp only [compare_problem_sizes_records, List.mem_append, List.mem_flatMap]
        exact Or.inl ⟨name, hname, by simp [h]⟩
      · simp only [compare_problem_sizes_records, List.mem_append, List.mem_flatMap]
        exact Or.inl ⟨name, hname, by simp [h]⟩
    · intro p hp
      constructor
      · simp only [compare_problem_sizes_records, List.mem_append, List.mem_flatMap]
        exact Or.inr ⟨p, hp, by simp [h]⟩
      · simp only [compare_problem_sizes_records, List.mem_append, List.mem_flatMap]
        exact Or.inr ⟨p, hp, by simp [h]⟩

/-- Witness for C7: at `dtype = float16` the hypothesis holds, and the
theorem yields that the one record emitted for a concrete 1-D sweep is a
cuda record. -/
theorem C7_witness :
    Dtype.float16 = Dtype.float16 ∧
    (UnaryRecord.mk "abs" "cuda" "all contiguous 1d" none).device = "cuda" :=
  ⟨rfl,
    (C7_float16_skips_cpu "abs" Dtype.float16 ["all contiguous 1d"] []).1 rfl
      ⟨"abs", "cuda", "all contiguous 1d", none⟩ (by decide)⟩

end TensorIteratorBenchmark
